import Mathlib

set_option maxRecDepth 40000
set_option synthInstance.maxHeartbeats 400000

/-!
Verification of the domain crawl engine of this repository
(`scripts/crawl3.py`, with the shared helpers it mirrors from
`framework/crawl.py`).

The Python code is shallowly embedded: strings are `List Char` (named `Str`
below), the on-disk ledger (three directories keyed by the SHA-256 of a
canonical URL) is an association list per namespace, and the standard-library
collaborators that the crawl code calls but does not define — `hashlib.sha256`
(hex digest), `re.search` on configurable patterns, `urllib.parse.urljoin`,
and `json.loads` of the renderer's link array — are parameters of the
embedding.  Fixed regular expressions appearing literally in the source
(the `href` scan, the `<head>`/`<title>` extraction, the binary-extension
skip) are embedded concretely.  Wall-clock sleeps, logging and byte/char
distinctions are elided; timestamps in failure records are elided.
-/

namespace Crawl3

/-- Python strings are modelled as lists of characters. -/
abbrev Str := List Char

/-- The single-quote character (used for quote handling in the href scan). -/
def squote : Char := Char.ofNat 39

/-- Python `s.split(c)[0]`: everything before the first occurrence of `c`. -/
def pySplitFirst (c : Char) (s : Str) : Str := s.takeWhile (fun x => x != c)

/-- Python `s.endswith(c)` for a single character. -/
def pyEndsWith (c : Char) (s : Str) : Bool := s.getLast? == some c

/-- Python `s.rstrip(c)` for a single character: remove every trailing `c`. -/
def pyRStrip (c : Char) (s : Str) : Str := (s.reverse.dropWhile (fun x => x == c)).reverse

/-- ASCII whitespace, as recognised by Python `str.strip`. -/
def pyIsSpace (c : Char) : Bool :=
  c == ' ' || c == '\t' || c == '\n' || c == '\r' || c == '\x0b' || c == '\x0c'

/-- Python `s.strip()`. -/
def pyStrip (s : Str) : Str :=
  ((s.dropWhile pyIsSpace).reverse.dropWhile pyIsSpace).reverse

/-- Python `s.lower()` (ASCII range; the crawl code only compares ASCII markers). -/
def pyLower (s : Str) : Str := s.map Char.toLower

/-- Python `s.split(c)`. -/
def splitParts (c : Char) (s : Str) : List Str :=
  s.foldr
    (fun x acc =>
      match acc with
      | [] => [[x]]
      | h :: t => if x = c then [] :: h :: t else (x :: h) :: t)
    [[]]

/-- Python `s.replace(pat, sub, 1)`: replace the first occurrence only. -/
def replaceFirst (pat sub : Str) : Str → Str
  | [] => if pat = [] then sub else []
  | c :: rest =>
    if pat.isPrefixOf (c :: rest) then sub ++ (c :: rest).drop pat.length
    else c :: replaceFirst pat sub rest

/-- The text before the first occurrence of `pat` in `s` (`none` when `pat`
does not occur).  This is the helper behind substring search. -/
def splitAtSubstr (pat : Str) : Str → Option Str
  | [] => if pat.isPrefixOf ([] : Str) then some [] else none
  | c :: rest =>
    if pat.isPrefixOf (c :: rest) then some []
    else
      match splitAtSubstr pat rest with
      | some s => some (c :: s)
      | none => none

/-- Python `pat in s` (substring membership). -/
def pyContains (pat s : Str) : Bool := (splitAtSubstr pat s).isSome

/-- `urllib.parse.urlparse(url).netloc` for the `http`/`https` URLs the
crawler manipulates: the host part between the scheme separator and the next
`/`, `?` or `#`.  URLs of any other shape parse with an empty netloc. -/
def netlocOf (url : Str) : Str :=
  if "https://".data.isPrefixOf url then
    (url.drop 8).takeWhile (fun c => !(c == '/' || c == '?' || c == '#'))
  else if "http://".data.isPrefixOf url then
    (url.drop 7).takeWhile (fun c => !(c == '/' || c == '?' || c == '#'))
  else []

/-- `urlparse(url).scheme` for the same URL shapes. -/
def schemeOf (url : Str) : Str :=
  if "https://".data.isPrefixOf url then "https".data
  else if "http://".data.isPrefixOf url then "http".data
  else []

/-- Step 1 of `normalize_url`: `url.split('#')[0].split('?')[0]`. -/
def stripFragQuery (u : Str) : Str := pySplitFirst '?' (pySplitFirst '#' u)

/-- Step 2 of `normalize_url`: upgrade `http://` to `https://`. -/
def upgradeHttp (u : Str) : Str :=
  if "http://".data.isPrefixOf u then "https://".data ++ u.drop 7 else u

/-- Step 3 of `normalize_url`: when the host equals the bare root domain and
has at most two labels, rewrite the first `://root` occurrence to
`://www.root`. -/
def wwwRewrite (root : Str) (u : Str) : Str :=
  if netlocOf u = root ∧ (splitParts '.' (netlocOf u)).length ≤ 2 then
    replaceFirst ("://".data ++ root) ("://www.".data ++ root) u
  else u

/-- Step 4 of `normalize_url`: `url.rstrip('/')` when the URL ends in `/` and
contains more than three `/` characters in total. -/
def stripTrailing (u : Str) : Str :=
  if pyEndsWith '/' u ∧ u.count '/' > 3 then pyRStrip '/' u else u

/-- `DomainCrawler.normalize_url` (crawl3.py lines 199-213; the module-level
`normalize_url` of framework/crawl.py lines 135-154 is the same computation):
strip fragment and query, upgrade `http://` to `https://`, rewrite a bare
root domain of at most two labels to its `www.` form, and `rstrip` the
trailing slashes when the path is more than one level deep.  The Python
`try`/`except` wrapper returning `""` never fires in the embedding because
the embedded `urlparse` fragment is total. -/
def normalize_url (root : Str) (url0 : Str) : Str :=
  stripTrailing (wwwRewrite root (upgradeHttp (stripFragQuery url0)))

/-- `url_to_sha` (crawl3.py lines 86-87): the SHA-256 hex digest of the URL.
The digest function itself is a parameter of the embedding. -/
def url_to_sha (sha256 : Str → Str) (url : Str) : Str := sha256 url

/-- The built-in `INCLUDE_PATTERNS` (crawl3.py line 69): empty, accept all URLs. -/
def INCLUDE_PATTERNS : List Str := []

/-- The built-in `EXCLUDE_PATTERNS` (crawl3.py lines 71-79), kept as the raw
regular-expression strings; they are only ever consulted through the abstract
`re.search` parameter. -/
def EXCLUDE_PATTERNS : List Str :=
  [ "\\?".data
  , "#".data
  , "/docs/".data
  , "/api/".data
  , "/cdn-cgi/".data
  , "\\.(jpg|jpeg|png|gif|webp|svg|ico|pdf|zip|tar|gz|mp4|mp3|wav|avi)(\\?|$)".data
  , "\\.(css|js|mjs|json|xml|txt|map|woff|woff2|ttf|eot|otf|rss|atom)(\\?|$)".data ]

/-- Per-domain include/exclude configuration (`config.json`). -/
structure Config where
  includePatterns : List Str
  excludePatterns : List Str
  deriving DecidableEq

/-- `DomainCrawler._load_config` fallback when no `config.json` exists. -/
def defaultConfig : Config := ⟨INCLUDE_PATTERNS, EXCLUDE_PATTERNS⟩

/-- The collaborators from the Python standard library used by the crawler,
abstracted: `re.search(p, s, re.IGNORECASE)` truthiness, `urljoin`, and
`json.loads` applied to the renderer's JSON array of link strings (`none`
models a `JSONDecodeError`/`TypeError`). -/
structure Prims where
  rmatch : Str → Str → Bool
  urljoin : Str → Str → Str
  jsonLinks : Str → Option (List Str)

/-- Per-domain crawler identity: the root domain (`domain.removeprefix("www.")`),
the `--subdomains` flag, and the loaded configuration. -/
structure CrawlerCfg where
  rootDomain : Str
  includeSubdomains : Bool
  config : Config

/-- `DomainCrawler.is_same_domain` (crawl3.py lines 215-218). -/
def is_same_domain (C : CrawlerCfg) (urlNetloc : Str) : Bool :=
  if !C.includeSubdomains then
    urlNetloc == C.rootDomain || urlNetloc == ("www.".data ++ C.rootDomain)
  else
    urlNetloc == C.rootDomain || ('.' :: C.rootDomain).isSuffixOf urlNetloc

/-- `DomainCrawler.should_include_url` (crawl3.py lines 220-229): must match at
least one include pattern (when any are configured) and no exclude pattern. -/
def should_include_url (P : Prims) (C : CrawlerCfg) (url : Str) : Bool :=
  let incl := C.config.includePatterns
  let excl := C.config.excludePatterns
  if incl ≠ [] ∧ ¬ incl.any (fun p => P.rmatch p url) then false
  else if excl ≠ [] ∧ excl.any (fun p => P.rmatch p url) then false
  else true

/-- The per-link body of `DomainCrawler._parse_js_links` (crawl3.py lines
240-252): normalize, require a same-domain netloc, and filter with the global
`EXCLUDE_PATTERNS` only (the source deliberately ignores the configured
include patterns for DOM-extracted links). -/
def processJsLink (P : Prims) (C : CrawlerCfg) (link0 : Str) : Option Str :=
  let link := normalize_url C.rootDomain link0
  if link = [] then none
  else if ¬ is_same_domain C (netlocOf link) then none
  else if EXCLUDE_PATTERNS ≠ [] ∧ EXCLUDE_PATTERNS.any (fun p => P.rmatch p link) then none
  else some link

/-- `DomainCrawler._parse_js_links` (crawl3.py lines 231-253) on the raw JSON
link array; the result set is modelled as a duplicate-free list in first-seen
order. -/
def parse_js_links (P : Prims) (C : CrawlerCfg) (raw : Str) : List Str :=
  match P.jsonLinks raw with
  | none => []
  | some links =>
    links.foldl
      (fun acc link =>
        match processJsLink P C link with
        | some u => if u ∈ acc then acc else acc ++ [u]
        | none => acc)
      []

/-- The prefixes skipped by the raw-markup link scan (crawl3.py line 262). -/
def skipPrefixes : List Str :=
  ["javascript:".data, "mailto:".data, "tel:".data, "#".data, "data:".data]

/-- The per-href body of `DomainCrawler.extract_urls_from_html` (crawl3.py
lines 260-277): strip, skip non-navigation schemes, resolve root-relative and
relative references against the base URL, normalize, require a same-domain
netloc, and apply the configured include/exclude filter. -/
def processHtmlLink (P : Prims) (C : CrawlerCfg) (baseUrl : Str) (rawHref : Str) : Option Str :=
  let url0 := pyStrip rawHref
  if skipPrefixes.any (fun p => p.isPrefixOf url0) then none
  else
    let url1 :=
      if url0.head? = some '/' then
        schemeOf baseUrl ++ "://".data ++ netlocOf baseUrl ++ url0
      else if ¬ ("http://".data.isPrefixOf url0 ∨ "https://".data.isPrefixOf url0) then
        P.urljoin baseUrl url0
      else url0
    let url := normalize_url C.rootDomain url1
    if url = [] then none
    else if ¬ is_same_domain C (netlocOf url) then none
    else if should_include_url P C url then some url
    else none

/-- One step of the scan for `href=["\x27]([^"\x27]+)["\x27]` matches
(crawl3.py line 257, `re.IGNORECASE`): at the current position, a
case-insensitive `href=`, one quote character, a non-empty run of non-quote
characters, and a closing quote.  Returns the captured group and the suffix
after the match. -/
def hrefMatchAt (l : Str) : Option (Str × Str) :=
  if pyLower (l.take 5) = "href=".data then
    match l.drop 5 with
    | q :: rest =>
      if q = '"' ∨ q = squote then
        let grp := rest.takeWhile (fun c => !(c == '"' || c == squote))
        let after := rest.drop grp.length
        if grp ≠ [] ∧ after ≠ [] then some (grp, after.drop 1) else none
      else none
    | [] => none
  else none

/-- The leftmost-first, non-overlapping `re.finditer` scan for href matches.
`fuel` bounds the recursion; it is instantiated with the length of the
scanned text, which suffices because every step consumes at least one
character. -/
def findHrefsAux : Nat → Str → List Str
  | 0, _ => []
  | _ + 1, [] => []
  | fuel + 1, c :: rest =>
    match hrefMatchAt (c :: rest) with
    | some (grp, after) => grp :: findHrefsAux fuel after
    | none => findHrefsAux fuel rest

/-- All href capture groups of the raw HTML, in document order. -/
def findHrefs (html : Str) : List Str := findHrefsAux html.length html

/-- `DomainCrawler.extract_urls_from_html` (crawl3.py lines 255-278); the
result set is modelled as a duplicate-free list in first-seen order. -/
def extract_urls_from_html (P : Prims) (C : CrawlerCfg) (html : Str) (baseUrl : Str) : List Str :=
  (findHrefs html).foldl
    (fun acc href =>
      match processHtmlLink P C baseUrl href with
      | some u => if u ∈ acc then acc else acc ++ [u]
      | none => acc)
    []

/-- A failure record `FAILED/<sha>`, holding `url|reason|timestamp` (the
timestamp is elided from the embedding; no claim inspects it). -/
structure FailureRec where
  url : Str
  reason : Str
  deriving DecidableEq

/-- The per-domain on-disk ledger: `INDEX/<sha>` files, `html/<sha>.html`
files with their byte size, `FAILED/<sha>` records, and the `removed/`
archive of displaced zero-size placeholders.  Each namespace is an
association list keyed by the hash. -/
structure Ledger where
  index : List (Str × Str)
  content : List (Str × Nat)
  failed : List (Str × FailureRec)
  removed : List (Str × Nat)
  deriving DecidableEq

/-- Association-list lookup (first entry wins, like a filesystem where each
name exists once). -/
def alookup (k : Str) : List (Str × α) → Option α
  | [] => none
  | (k₀, v) :: rest => if k₀ = k then some v else alookup k rest

/-- Association-list update: overwrite the first entry with the key, append
when absent (filesystem `write_text`). -/
def aset (k : Str) (v : α) : List (Str × α) → List (Str × α)
  | [] => [(k, v)]
  | (k₀, v₀) :: rest => if k₀ = k then (k, v) :: rest else (k₀, v₀) :: aset k v rest

/-- Association-list removal of the entry with the key (filesystem move). -/
def aerase (k : Str) : List (Str × α) → List (Str × α)
  | [] => []
  | (k₀, v₀) :: rest => if k₀ = k then rest else (k₀, v₀) :: aerase k rest

/-- `DomainCrawler.is_downloaded` (crawl3.py lines 289-291): the HTML file
exists and has size above 100 bytes. -/
def is_downloaded (L : Ledger) (sha : Str) : Bool :=
  match alookup sha L.content with
  | some size => size > 100
  | none => false

/-- `DomainCrawler.is_failed` (crawl3.py lines 293-294). -/
def is_failed (L : Ledger) (sha : Str) : Bool := (alookup sha L.failed).isSome

/-- `DomainCrawler.touch_file` (crawl3.py lines 284-287): create the zero-size
placeholder if no HTML file exists yet. -/
def touch_file (L : Ledger) (sha : Str) : Ledger :=
  if (alookup sha L.content).isSome then L
  else { L with content := (sha, 0) :: L.content }

/-- `DomainCrawler.mark_failed` (crawl3.py lines 296-303): write the failure
record, and move a zero-size placeholder into the removed archive. -/
def mark_failed (L : Ledger) (sha : Str) (url : Str) (reason : Str) : Ledger :=
  let L₁ := { L with failed := aset sha ⟨url, reason⟩ L.failed }
  match alookup sha L₁.content with
  | some 0 => { L₁ with content := aerase sha L₁.content, removed := (sha, 0) :: L₁.removed }
  | _ => L₁

/-- `DomainCrawler.register_url` (crawl3.py lines 305-315): refuse hashes that
are Downloaded or Failed, touch the placeholder, and write the Index entry
when absent (returning whether a new entry was admitted). -/
def register_url (sha256 : Str → Str) (L : Ledger) (url : Str) : Bool × Ledger :=
  let sha := url_to_sha sha256 url
  if is_downloaded L sha ∨ is_failed L sha then (false, L)
  else
    let L₁ := touch_file L sha
    if (alookup sha L₁.index).isSome then (false, L₁)
    else (true, { L₁ with index := (sha, url) :: L₁.index })

/-- Iterated re-registration of the same URL (for stating idempotence). -/
def registerIter (sha256 : Str → Str) (url : Str) : Nat → Ledger → Ledger
  | 0, L => L
  | n + 1, L => registerIter sha256 url n (register_url sha256 L url).2

/-- The mutable crawl state of one `DomainCrawler`: its ledger, the pending
queue of `(sha, url)` pairs, the dedup set of queued hashes (a duplicate-free
list), the `active` flag and the counters. -/
structure CrawlState where
  ledger : Ledger
  pending : List (Str × Str)
  pendingShas : List Str
  active : Bool
  total_ok : Nat
  total_errors : Nat
  total_new_urls : Nat
  pages_processed : Nat
  deriving DecidableEq

/-- Python `set.add` on the modelled hash set. -/
def setAdd (h : Str) (l : List Str) : List Str := if h ∈ l then l else h :: l

/-- `DomainCrawler.register_and_queue` (crawl3.py lines 317-328). -/
def register_and_queue (sha256 : Str → Str) (s : CrawlState) (url : Str) : Bool × CrawlState :=
  let sha := url_to_sha sha256 url
  if is_downloaded s.ledger sha ∨ is_failed s.ledger sha ∨ sha ∈ s.pendingShas then (false, s)
  else
    let L₁ := touch_file s.ledger sha
    let L₂ := if (alookup sha L₁.index).isSome then L₁
              else { L₁ with index := (sha, url) :: L₁.index }
    (true, { s with ledger := L₂
                  , pending := s.pending ++ [(sha, url)]
                  , pendingShas := setAdd sha s.pendingShas })

/-- The `(sha, url)` pairs recovered from the ledger by
`DomainCrawler.refresh_pending` (crawl3.py lines 334-346): zero-size HTML
placeholders that are not Failed and have an Index entry. -/
def refreshedPairs (L : Ledger) : List (Str × Str) :=
  L.content.filterMap
    (fun e =>
      if e.2 = 0 then
        if is_failed L e.1 then none
        else
          match alookup e.1 L.index with
          | some url => some (e.1, pyStrip url)
          | none => none
      else none)

/-- `DomainCrawler.refresh_pending`: rebuild queue and dedup set together. -/
def refresh_pending (s : CrawlState) : CrawlState :=
  let pairs := refreshedPairs s.ledger
  { s with pending := pairs
         , pendingShas := pairs.foldl (fun acc e => setAdd e.1 acc) [] }

/-- `DomainCrawler.has_pending` (crawl3.py lines 348-349). -/
def has_pending (s : CrawlState) : Bool := s.active && !s.pending.isEmpty

/-- The binary/non-HTML extensions skipped by `process_one` (crawl3.py line 387). -/
def binaryExts : List Str :=
  [ "pdf".data, "zip".data, "tar".data, "gz".data, "mp4".data, "mp3".data
  , "wav".data, "avi".data, "exe".data, "dmg".data, "iso".data, "doc".data
  , "docx".data, "xls".data, "xlsx".data, "ppt".data, "pptx".data ]

/-- One alternative of `\.(pdf|zip|...)(\?|$)` anchored at the current suffix. -/
def binaryExtAt : Str → Bool
  | '.' :: rest =>
    binaryExts.any (fun e =>
      e.isPrefixOf rest && (rest.drop e.length == ([] : Str) || (rest.drop e.length).head? == some '?'))
  | _ => false

/-- `re.search(r'\.(pdf|...)(\?|$)', url, re.IGNORECASE)` truthiness. -/
def hasBinaryExt (url : Str) : Bool := (pyLower url).tails.any binaryExtAt

/-- The outcome of one Python call into the renderer bridge: a value, or a
raised exception. -/
inductive PyResult (α : Type) where
  | ok (a : α)
  | exn
  deriving DecidableEq

/-- The renderer's behaviour for one fetch, through the CDP bridge contract:
`navigate`, the per-iteration `document.readyState` evaluation, the
`querySelectorAll("a[href]")` link evaluation (a JSON string, `none` models a
JavaScript `null` result), and `get_html`. -/
structure FetchBehavior where
  navigate : PyResult Unit
  readyState : Nat → PyResult (Option Str)
  evalLinks : PyResult (Option Str)
  getHtml : PyResult (Option Str)

/-- The `readyState` poll loop (crawl3.py lines 399-406): up to 30 polls,
exceptions caught and swallowed (`continue`), early exit on `"complete"`.
Its only effect is time, so its value is `Unit`. -/
def pollReady (b : FetchBehavior) : Nat → Unit
  | 0 => ()
  | n + 1 =>
    match b.readyState n with
    | .exn => pollReady b n
    | .ok st => if st = some "complete".data then () else pollReady b n

/-- The guarded fetch block of `process_one` (crawl3.py lines 395-417):
returns `(html, js_links_raw, bridge_error)`.  A raised exception from
`navigate`, the link evaluation, or `get_html` resets both outputs and sets
`bridge_error`; a `None` from an evaluation is replaced by `"[]"` or `""`. -/
def doFetch (b : FetchBehavior) : Str × Str × Bool :=
  match b.navigate with
  | .exn => ([], "[]".data, true)
  | .ok _ =>
    let _ := pollReady b 30
    match b.evalLinks with
    | .exn => ([], "[]".data, true)
    | .ok raw =>
      let rawS := raw.getD "[]".data
      match b.getHtml with
      | .exn => ([], "[]".data, true)
      | .ok h => (h.getD [], rawS, false)

/-- The error-classification table of `process_one` (crawl3.py lines 429-436),
in source order. -/
def classifyTable : List (Str × List Str) :=
  [ ("404_not_found".data, ["404".data, "not found".data])
  , ("403_forbidden".data, ["403".data, "forbidden".data])
  , ("429_rate_limited".data, ["429".data, "too many requests".data])
  , ("500_server_error".data, ["500".data, "internal server error".data])
  , ("502_bad_gateway".data, ["502".data, "bad gateway".data])
  , ("503_unavailable".data, ["503".data, "service unavailable".data]) ]

/-- First row of the decision table whose patterns occur in the title
(`break` on the first match). -/
def firstError (title : Str) : Option Str :=
  classifyTable.findSome?
    (fun row => if row.2.any (fun p => pyContains p title) then some row.1 else none)

/-- The `<head[^>]*>(.*?)</head>` search (crawl3.py line 423, `re.DOTALL`):
leftmost occurrence of `<head`, a greedy run of non-`>` characters closed by
`>`, then the shortest body terminated by `</head>`. -/
def findHeadContent : Str → Option Str
  | [] => none
  | c :: rest =>
    if "<head".data.isPrefixOf (c :: rest) then
      let after := (c :: rest).drop 5
      let run := after.takeWhile (fun x => x != '>')
      match after.drop run.length with
      | '>' :: body =>
        match splitAtSubstr "</head>".data body with
        | some content => some content
        | none => findHeadContent rest
      | _ => findHeadContent rest
    else findHeadContent rest

/-- The `<title[^>]*>(.*?)</title>` search (crawl3.py line 425). -/
def findTitleContent : Str → Option Str
  | [] => none
  | c :: rest =>
    if "<title".data.isPrefixOf (c :: rest) then
      let after := (c :: rest).drop 6
      let run := after.takeWhile (fun x => x != '>')
      match after.drop run.length with
      | '>' :: body =>
        match splitAtSubstr "</title>".data body with
        | some content => some content
        | none => findTitleContent rest
      | _ => findTitleContent rest
    else findTitleContent rest

/-- The page title as computed by `process_one` (crawl3.py lines 422-426):
lowercase the HTML, take the first `<head>` section (or the first 5000
characters when no head section matches), find the title there, and strip it. -/
def pageTitleOf (html : Str) : Str :=
  let htmlLower := pyLower html
  let headS := (findHeadContent htmlLower).getD (htmlLower.take 5000)
  match findTitleContent headS with
  | some t => pyStrip t
  | none => []

/-- The error classifier of `process_one` (crawl3.py lines 421-439), applied
once the 500-character gate has passed. -/
def errorReasonOf (html : Str) : Option Str := firstError (pageTitleOf html)

/-- The registration loop over freshly extracted links (crawl3.py lines
452-456): `register_and_queue` each and count the admissions. -/
def registerAll (sha256 : Str → Str) (urls : List Str) (s : CrawlState) : CrawlState :=
  urls.foldl
    (fun s₀ u =>
      let r := register_and_queue sha256 s₀ u
      if r.1 then { r.2 with total_new_urls := r.2.total_new_urls + 1 } else r.2)
    s

/-- Set union `new_urls | js_urls`, modelled as duplicate-free first-seen
insertion of the second list into the first. -/
def urlUnion (a b : List Str) : List Str :=
  b.foldl (fun acc u => if u ∈ acc then acc else acc ++ [u]) a

/-- `DomainCrawler.process_one` (crawl3.py lines 376-467): pop the next
frontier entry, re-check its ledger state, skip binary targets, fetch through
the renderer, classify, and either record a failure, or store the page and
register the union of both link extractions.  `behOf` gives the renderer's
behaviour for each URL.  Returns the Python method's boolean. -/
def process_one (sha256 : Str → Str) (P : Prims) (C : CrawlerCfg)
    (behOf : Str → FetchBehavior) (s : CrawlState) : Bool × CrawlState :=
  match s.pending with
  | [] => (false, s)
  | (sha, url) :: rest =>
    let s₁ := { s with pending := rest, pendingShas := s.pendingShas.erase sha }
    if is_failed s₁.ledger sha ∨ is_downloaded s₁.ledger sha then (true, s₁)
    else if hasBinaryExt url then
      (true, { s₁ with ledger := mark_failed s₁.ledger sha url "skipped_binary".data })
    else
      let fr := doFetch (behOf url)
      let html := fr.1
      let jsLinksRaw := fr.2.1
      let bridgeError := fr.2.2
      let s₂ := { s₁ with pages_processed := s₁.pages_processed + 1 }
      if html ≠ [] ∧ html.length > 500 then
        match errorReasonOf html with
        | some reason =>
          (true, { s₂ with ledger := mark_failed s₂.ledger sha url reason
                         , total_errors := s₂.total_errors + 1 })
        | none =>
          let stored := "<!-- URL: ".data ++ url ++ " -->\n".data ++ html
          let s₃ := { s₂ with ledger :=
            { s₂.ledger with content := aset sha stored.length s₂.ledger.content } }
          let newUrls := extract_urls_from_html P C html url
          let jsUrls := parse_js_links P C jsLinksRaw
          let allUrls := urlUnion newUrls jsUrls
          let s₄ := registerAll sha256 allUrls s₃
          (true, { s₄ with total_ok := s₄.total_ok + 1 })
      else if bridgeError then (true, s₂)
      else
        (true, { s₂ with ledger := mark_failed s₂.ledger sha url "empty_response".data
                       , total_errors := s₂.total_errors + 1 })

/-- The round-robin loop of `crawl_batch` (crawl3.py lines 532-552)
specialised to a one-domain batch: while the domain has pending work, call
`process_one` (which always reports progress on a non-empty frontier, so the
no-progress refresh branch is unreachable for a single live domain).  `fuel`
bounds the number of iterations. -/
def crawlLoop (sha256 : Str → Str) (P : Prims) (C : CrawlerCfg)
    (behOf : Str → FetchBehavior) : Nat → CrawlState → CrawlState
  | 0, s => s
  | fuel + 1, s =>
    if has_pending s then crawlLoop sha256 P C behOf fuel (process_one sha256 P C behOf s).2
    else s

/-- `MAX_PER_BATCH` (crawl3.py line 474). -/
def MAX_PER_BATCH : Nat := 4

/-- `MAX_DOMAINS` (crawl3.py line 475). -/
def MAX_DOMAINS : Nat := 100

/-- The slicing loop of `split_into_batches` (crawl3.py lines 489-493): batch
`i` gets `n / numBatches` domains plus one while `i < n % numBatches`;
`remaining` counts the batches still to emit. -/
def batchSlices (domains : List α) (n numBatches : Nat) : Nat → Nat → List (List α)
  | _, 0 => []
  | idx, remaining + 1 =>
    let i := numBatches - (remaining + 1)
    let size := n / numBatches + (if i < n % numBatches then 1 else 0)
    ((domains.drop idx).take size) :: batchSlices domains n numBatches (idx + size) remaining

/-- `split_into_batches` (crawl3.py lines 478-494): one batch when the list
fits, otherwise `ceil(n / maxPerBatch)` balanced slices. -/
def split_into_batches (domains : List α) (maxPerBatch : Nat) : List (List α) :=
  let n := domains.length
  if n ≤ maxPerBatch then [domains]
  else
    let numBatches := (n + maxPerBatch - 1) / maxPerBatch
    batchSlices domains n numBatches 0 numBatches

/-- The queue operations of claim C10, as a small command language over the
crawl state. -/
inductive QOp where
  | reg (url : Str)
  | proc (behOf : Str → FetchBehavior)
  | refresh

/-- Interpretation of one queue operation. -/
def applyOp (sha256 : Str → Str) (P : Prims) (C : CrawlerCfg) (s : CrawlState) : QOp → CrawlState
  | .reg url => (register_and_queue sha256 s url).2
  | .proc behOf => (process_one sha256 P C behOf s).2
  | .refresh => refresh_pending s

/-- Interpretation of a sequence of queue operations. -/
def applyOps (sha256 : Str → Str) (P : Prims) (C : CrawlerCfg) (ops : List QOp) (s : CrawlState) : CrawlState :=
  ops.foldl (applyOp sha256 P C) s

/-- Number of entries of an association list carrying a given key. -/
def countKey (k : Str) (l : List (Str × α)) : Nat :=
  l.countP (fun e => e.1 == k)

/-- Arithmetic helper for the batch-slicing proofs: the total number of
domains placed by the last `k` slices of a split into `nb` batches of `n`
domains. -/
def restSum (n nb k : Nat) : Nat := k * (n / nb) + (n % nb - (nb - k))

/-- A concrete instantiation of the standard-library collaborators, used by
witnesses and counterexamples: `re.search` restricted to the literal
patterns the examples use (plain substring search), a trivial `urljoin`
(never exercised on absolute links), and `json.loads` on the inputs that
occur. -/
def prims0 : Prims :=
  { rmatch := fun p s => pyContains p s
  , urljoin := fun b r => b ++ r
  , jsonLinks := fun s => if s = "[]".data then some [] else none }

/-- A crawler for `example.com` whose `config.json` carries the include
pattern `/blog/` (a configuration the loader accepts verbatim). -/
def cfgBlog : CrawlerCfg :=
  { rootDomain := "example.com".data
  , includeSubdomains := false
  , config := { includePatterns := ["/blog/".data], excludePatterns := [] } }

/-- A crawler for `example.com` with the built-in default configuration. -/
def cfgDefault : CrawlerCfg :=
  { rootDomain := "example.com".data
  , includeSubdomains := false
  , config := defaultConfig }

/-- A 523-character page whose head title carries both a 404 and a 429
marker. -/
def html404429 : Str :=
  "<head><title>404 429 too many requests</title></head>".data ++ List.replicate 470 'x'

/-- A 515-character page with an unremarkable title. -/
def cleanHtml : Str :=
  "<head><title>welcome</title></head>".data ++ List.replicate 480 'x'

/-- Renderer behaviour whose `document.readyState` evaluation raises on every
poll while navigation, the link evaluation and `get_html` all succeed. -/
def behReadyStateRaises : FetchBehavior :=
  { navigate := .ok ()
  , readyState := fun _ => .exn
  , evalLinks := .ok none
  , getHtml := .ok (some cleanHtml) }

/-- A crawl state holding one registered Pending entry (Index entry plus
zero-size placeholder) for the hash `h1`. -/
def stOne : CrawlState :=
  { ledger := { index := [("h1".data, "https://www.example.com/a".data)]
              , content := [("h1".data, 0)]
              , failed := []
              , removed := [] }
  , pending := [("h1".data, "https://www.example.com/a".data)]
  , pendingShas := ["h1".data]
  , active := true
  , total_ok := 0
  , total_errors := 0
  , total_new_urls := 0
  , pages_processed := 0 }

/-- The queue invariant of claim C10: the dedup set `pending_shas` holds
exactly the hashes of the pending queue, neither structure repeats a hash,
and the content namespace (one file per hash) has no duplicate keys. -/
def QueueInv (s : CrawlState) : Prop :=
  (∀ k, k ∈ s.pendingShas ↔ k ∈ s.pending.map Prod.fst) ∧
  (s.pending.map Prod.fst).Nodup ∧
  s.pendingShas.Nodup ∧
  (s.ledger.content.map Prod.fst).Nodup

/-- The empty crawl state. -/
def stEmpty : CrawlState :=
  { ledger := { index := [], content := [], failed := [], removed := [] }
  , pending := [], pendingShas := [], active := true
  , total_ok := 0, total_errors := 0, total_new_urls := 0, pages_processed := 0 }

/-- A hash function for the single-URL examples. -/
def shaOne : Str → Str := fun _ => "h1".data

/-- The spec's classifier example: a 517-character page whose head title is
`429 - Too Many Requests` while the body carries `404 not found`. -/
def htmlSpecExample : Str :=
  "<head><title>429 - Too Many Requests</title></head><body>404 not found</body>".data
    ++ List.replicate 440 'x'

/-- Renderer behaviour that succeeds everywhere but renders a five-character
page. -/
def behShortHtml : FetchBehavior :=
  { navigate := .ok ()
  , readyState := fun _ => .ok (some "complete".data)
  , evalLinks := .ok (some "[]".data)
  , getHtml := .ok (some "short".data) }

/-- Renderer behaviour whose `navigate` call raises. -/
def behNavigateRaises : FetchBehavior :=
  { navigate := .exn
  , readyState := fun _ => .ok none
  , evalLinks := .ok none
  , getHtml := .ok none }

theorem takeWhile_ne_self (c : Char) (l : Str) (h : ∀ x ∈ l, x ≠ c) :
    l.takeWhile (fun x => x != c) = l := by
  rw [List.takeWhile_eq_self_iff]
  intro a ha
  simpa using h a ha

theorem stripFragQuery_eq_self (u : Str) (h1 : ∀ x ∈ u, x ≠ '#') (h2 : ∀ x ∈ u, x ≠ '?') :
    stripFragQuery u = u := by
  unfold stripFragQuery pySplitFirst
  rw [takeWhile_ne_self _ _ h1, takeWhile_ne_self _ _ h2]

theorem upgradeHttp_https (t : Str) :
    upgradeHttp ("https://".data ++ t) = "https://".data ++ t := by
  have h : ("http://".data.isPrefixOf ("https://".data ++ t)) = false := rfl
  simp [upgradeHttp, h]

theorem wwwRewrite_of_netloc_ne (root u : Str) (h : netlocOf u ≠ root) :
    wwwRewrite root u = u := by
  unfold wwwRewrite
  rw [if_neg]
  rintro ⟨h1, -⟩
  exact h h1

theorem stripTrailing_of_not (u : Str) (h : ¬ (pyEndsWith '/' u = true ∧ u.count '/' > 3)) :
    stripTrailing u = u := by
  unfold stripTrailing
  rw [if_neg]
  simpa using h

theorem pyRStrip_append_single (s : Str) (hs : s.getLast? ≠ some '/') :
    pyRStrip '/' (s ++ ['/']) = s := by
  unfold pyRStrip
  rw [List.reverse_append]
  simp only [List.reverse_cons, List.reverse_nil, List.nil_append, List.singleton_append]
  rw [List.dropWhile_cons]
  simp only [beq_self_eq_true, if_true]
  cases hrev : s.reverse with
  | nil =>
    have hsnil : s = [] := by simpa using congrArg List.reverse hrev
    simp [hrev, hsnil]
  | cons x xs =>
    have hx : x ≠ '/' := by
      have hlast : s.getLast? = some x := by
        rw [← List.head?_reverse, hrev]
        rfl
      intro hxe
      exact hs (by rw [hlast, hxe])
    rw [List.dropWhile_cons, if_neg (by simp [hx]), ← hrev, List.reverse_reverse]

/-- Claim C7, counterexample: on `https://www.example.com/a//` — a URL of
path depth greater than one ending in a slash — `normalize_url` removes two
trailing slashes, not exactly one, because the final step is Python
`rstrip('/')`. -/
theorem normalize_url_strips_two_slashes :
    normalize_url "example.com".data "https://www.example.com/a//".data
      = "https://www.example.com/a".data ∧
    pyEndsWith '/' "https://www.example.com/a//".data = true ∧
    ("https://www.example.com/a//".data).count '/' = 5 ∧
    ("https://www.example.com/a//".data).length
      = (normalize_url "example.com".data "https://www.example.com/a//".data).length + 2 := by
  decide

/-- Claim C7 (amended): for an https URL without fragment or query whose host
is not the bare root domain, `normalize_url` leaves the URL unchanged (its
trailing slash included) when it does not end in `/` or has at most three
`/` characters (path depth at most one); and when it ends in exactly one
trailing slash with more than three `/` characters, exactly that one slash is
removed.  (With several trailing slashes, all of them are removed — see the
counterexample.) -/
theorem normalize_url_trailing_slash (root u s : Str)
    (hhash : ∀ x ∈ u, x ≠ '#') (hq : ∀ x ∈ u, x ≠ '?')
    (hp : "https://".data <+: u)
    (hroot : netlocOf u ≠ root) :
    (¬ (pyEndsWith '/' u = true ∧ u.count '/' > 3) → normalize_url root u = u) ∧
    (u = s ++ ['/'] → s.getLast? ≠ some '/' → u.count '/' > 3 → normalize_url root u = s) := by
  obtain ⟨t, ht⟩ := hp
  have hchain : wwwRewrite root (upgradeHttp (stripFragQuery u)) = u := by
    rw [stripFragQuery_eq_self u hhash hq, ← ht, upgradeHttp_https, ht]
    exact wwwRewrite_of_netloc_ne root u hroot
  constructor
  · intro hcond
    unfold normalize_url
    rw [hchain]
    exact stripTrailing_of_not u hcond
  · intro hu hlast hcount
    unfold normalize_url
    rw [hchain, hu]
    have hend : pyEndsWith '/' (s ++ ['/']) = true := by
      simp [pyEndsWith]
    unfold stripTrailing
    rw [if_pos ⟨hend, by rw [← hu]; exact hcount⟩]
    exact pyRStrip_append_single s hlast

/-- Witness for the amended claim C7 at a concrete input. -/
theorem normalize_url_trailing_slash_witness :
    normalize_url "example.com".data "https://www.other.com/a/b/".data
      = "https://www.other.com/a/b".data :=
  (normalize_url_trailing_slash "example.com".data "https://www.other.com/a/b/".data
      "https://www.other.com/a/b".data (by decide) (by decide)
      ⟨"www.other.com/a/b/".data, by decide⟩ (by decide)).2
    (by decide) (by decide) (by decide)

theorem restSum_zero (n nb : Nat) (h : 0 < nb) : restSum n nb 0 = 0 := by
  unfold restSum
  have := Nat.mod_lt n h
  omega

theorem restSum_succ (n nb k : Nat) (h : k < nb) :
    restSum n nb (k + 1) = (n / nb + if nb - (k + 1) < n % nb then 1 else 0) + restSum n nb k := by
  unfold restSum
  rw [Nat.succ_mul]
  have hr : n % nb < nb := Nat.mod_lt n (by omega)
  generalize k * (n / nb) = t
  split <;> omega

theorem restSum_full (n nb : Nat) : restSum n nb nb = n := by
  unfold restSum
  have := Nat.div_add_mod n nb
  omega

theorem batchSlices_length {α : Type _} (domains : List α) (n nb : Nat) :
    ∀ k idx, (batchSlices domains n nb idx k).length = k := by
  intro k
  induction k with
  | zero => intro idx; simp [batchSlices]
  | succ k ih => intro idx; simp [batchSlices, ih]

theorem batchSlices_flatten {α : Type _} (domains : List α) (nb : Nat) (hnb : 0 < nb) :
    ∀ k idx, k ≤ nb → idx + restSum domains.length nb k = domains.length →
      (batchSlices domains domains.length nb idx k).flatten = domains.drop idx := by
  intro k
  induction k with
  | zero =>
    intro idx _ hinv
    rw [restSum_zero _ _ hnb] at hinv
    have hd : domains.drop idx = [] := List.drop_eq_nil_of_le (by omega)
    simp [batchSlices, hd]
  | succ k ih =>
    intro idx hk hinv
    have hrec := restSum_succ domains.length nb k (by omega)
    simp only [batchSlices, List.flatten_cons]
    generalize he : (if nb - (k + 1) < domains.length % nb then 1 else 0) = e at hrec ⊢
    rw [ih (idx + (domains.length / nb + e)) (by omega) (by omega)]
    rw [← List.drop_drop]
    exact List.take_append_drop _ (domains.drop idx)

theorem batchSlices_map_length {α : Type _} (domains : List α) (nb : Nat) :
    ∀ k idx, k ≤ nb → idx + restSum domains.length nb k = domains.length →
      (batchSlices domains domains.length nb idx k).map List.length
        = (List.range k).map
            (fun j => domains.length / nb + if nb - k + j < domains.length % nb then 1 else 0) := by
  intro k
  induction k with
  | zero => intro idx _ _; simp [batchSlices]
  | succ k ih =>
    intro idx hk hinv
    have hrec := restSum_succ domains.length nb k (by omega)
    simp only [batchSlices, List.map_cons]
    generalize he : (if nb - (k + 1) < domains.length % nb then 1 else 0) = e at hrec ⊢
    rw [ih (idx + (domains.length / nb + e)) (by omega) (by omega)]
    rw [List.range_succ_eq_map, List.map_cons, List.map_map]
    congr 1
    · dsimp only
      rw [Nat.add_zero, he, List.length_take, List.length_drop]
      omega
    · apply List.map_congr_left
      intro j _
      have harith : nb - (k + 1) + (j + 1) = nb - k + j := by omega
      simp [Function.comp, harith]

/-- Claim C8: `split_into_batches` returns the whole input as a single batch
when it fits, otherwise `ceil(n / maxPerBatch)` batches whose sizes differ by
at most one and never increase along the list (remainder to the first
batches); concatenating the batches yields the original list, and 13 domains
with maximum 4 split as `[4, 3, 3, 3]`. -/
theorem split_into_batches_balanced {α : Type _} (domains : List α) (m : Nat) (hm : 0 < m) :
    (domains.length ≤ m → split_into_batches domains m = [domains]) ∧
    (split_into_batches domains m).flatten = domains ∧
    (m < domains.length →
      (split_into_batches domains m).length = (domains.length + m - 1) / m ∧
      (∀ b₁ ∈ split_into_batches domains m, ∀ b₂ ∈ split_into_batches domains m,
        b₁.length ≤ b₂.length + 1) ∧
      ((split_into_batches domains m).map List.length).Pairwise (· ≥ ·)) ∧
    ((split_into_batches (List.range 13) 4).map List.length = [4, 3, 3, 3] ∧
      (split_into_batches (List.range 13) 4).flatten = List.range 13) := by
  refine ⟨?_, ?_, ?_, by decide⟩
  · intro hle
    simp [split_into_batches, hle]
  · by_cases hle : domains.length ≤ m
    · simp [split_into_batches, hle]
    · have hnbpos : 0 < (domains.length + m - 1) / m := Nat.div_pos (by omega) hm
      have hj := batchSlices_flatten domains ((domains.length + m - 1) / m) hnbpos
        ((domains.length + m - 1) / m) 0 le_rfl (by simp [restSum_full])
      simp [split_into_batches, hle, hj]
  · intro hlt
    have hle : ¬ domains.length ≤ m := by omega
    have hmap := batchSlices_map_length domains ((domains.length + m - 1) / m)
      ((domains.length + m - 1) / m) 0 le_rfl (by simp [restSum_full])
    have hunfold : split_into_batches domains m
        = batchSlices domains domains.length ((domains.length + m - 1) / m) 0
            ((domains.length + m - 1) / m) := by
      simp [split_into_batches, hle]
    refine ⟨?_, ?_, ?_⟩
    · rw [hunfold, batchSlices_length]
    · intro b₁ hb₁ b₂ hb₂
      rw [hunfold] at hb₁ hb₂
      have hm₁ := List.mem_map_of_mem List.length hb₁
      have hm₂ := List.mem_map_of_mem List.length hb₂
      rw [hmap] at hm₁ hm₂
      obtain ⟨j₁, -, hj₁⟩ := List.mem_map.mp hm₁
      obtain ⟨j₂, -, hj₂⟩ := List.mem_map.mp hm₂
      rw [← hj₁, ← hj₂]
      split <;> split <;> omega
    · rw [hunfold, hmap, List.pairwise_map]
      apply (List.pairwise_lt_range _).imp
      intro a b hab
      dsimp only
      split <;> split <;> omega

/-- Witness for claim C8 at the 13-domain instance. -/
theorem split_into_batches_balanced_witness :
    (split_into_batches (List.range 13) 4).map List.length = [4, 3, 3, 3] ∧
    (split_into_batches (List.range 13) 4).flatten = List.range 13 :=
  (split_into_batches_balanced (List.range 13) 4 (by decide)).2.2.2

theorem countKey_cons {α : Type _} (k : Str) (e : Str × α) (l : List (Str × α)) :
    countKey k (e :: l) = countKey k l + (if e.1 == k then 1 else 0) :=
  List.countP_cons _ _ _

theorem countKey_eq_zero_of_alookup_none {α : Type _} (k : Str) (l : List (Str × α))
    (h : alookup k l = none) : countKey k l = 0 := by
  induction l with
  | nil => rfl
  | cons e rest ih =>
    rw [alookup] at h
    by_cases hk : e.1 = k
    · rw [if_pos hk] at h
      exact absurd h (by simp)
    · rw [if_neg hk] at h
      rw [countKey_cons, ih h, if_neg (by simpa using hk)]

/-- Claim C1: on a ledger where the URL's hash has no Index entry, no HTML
file and no Failure record, `register_url` returns true and creates exactly
one Index entry and exactly one zero-size Content placeholder for the hash;
re-registering the same URL afterwards returns false and leaves the ledger
unchanged, however often it is repeated, so the ledger keeps exactly one
Index/Content pair. -/
theorem register_url_idempotent (sha256 : Str → Str) (L : Ledger) (url : Str)
    (hidx : alookup (url_to_sha sha256 url) L.index = none)
    (hcon : alookup (url_to_sha sha256 url) L.content = none)
    (hfail : alookup (url_to_sha sha256 url) L.failed = none) :
    (register_url sha256 L url).1 = true ∧
    countKey (url_to_sha sha256 url) (register_url sha256 L url).2.index = 1 ∧
    countKey (url_to_sha sha256 url) (register_url sha256 L url).2.content = 1 ∧
    alookup (url_to_sha sha256 url) (register_url sha256 L url).2.content = some 0 ∧
    register_url sha256 (register_url sha256 L url).2 url
      = (false, (register_url sha256 L url).2) ∧
    ∀ n, registerIter sha256 url n (register_url sha256 L url).2
      = (register_url sha256 L url).2 := by
  have hdl : is_downloaded L (url_to_sha sha256 url) = false := by
    simp [is_downloaded, hcon]
  have hfl : is_failed L (url_to_sha sha256 url) = false := by
    simp [is_failed, hfail]
  have hreg : register_url sha256 L url
      = (true, { L with index := (url_to_sha sha256 url, url) :: L.index
                      , content := (url_to_sha sha256 url, 0) :: L.content }) := by
    simp [register_url, hdl, hfl, touch_file, hcon, hidx]
  have hfix : register_url sha256 (register_url sha256 L url).2 url
      = (false, (register_url sha256 L url).2) := by
    rw [hreg]
    simp [register_url, is_downloaded, is_failed, alookup, touch_file, hfail]
  refine ⟨by rw [hreg], ?_, ?_, ?_, hfix, ?_⟩
  · rw [hreg, countKey_cons,
      countKey_eq_zero_of_alookup_none _ _ hidx]
    simp
  · rw [hreg, countKey_cons,
      countKey_eq_zero_of_alookup_none _ _ hcon]
    simp
  · rw [hreg]
    simp [alookup]
  · intro n
    induction n with
    | zero => rfl
    | succ n ih => rw [registerIter, hfix, ih]

/-- Witness for claim C1: a fresh URL on the empty ledger is admitted once;
five further registrations leave the ledger untouched. -/
theorem register_url_idempotent_witness :
    (register_url id ⟨[], [], [], []⟩ "https://www.example.com/a".data).1 = true ∧
    countKey (url_to_sha id "https://www.example.com/a".data)
      (register_url id ⟨[], [], [], []⟩ "https://www.example.com/a".data).2.index = 1 ∧
    registerIter id "https://www.example.com/a".data 5
      (register_url id ⟨[], [], [], []⟩ "https://www.example.com/a".data).2
      = (register_url id ⟨[], [], [], []⟩ "https://www.example.com/a".data).2 :=
  ⟨(register_url_idempotent id ⟨[], [], [], []⟩ "https://www.example.com/a".data rfl rfl rfl).1,
   (register_url_idempotent id ⟨[], [], [], []⟩ "https://www.example.com/a".data rfl rfl rfl).2.1,
   (register_url_idempotent id ⟨[], [], [], []⟩ "https://www.example.com/a".data rfl rfl rfl).2.2.2.2.2 5⟩

theorem alookup_of_mem_nodup {α : Type _} (l : List (Str × α))
    (hnd : (l.map Prod.fst).Nodup) (k : Str) (v : α) (hm : (k, v) ∈ l) :
    alookup k l = some v := by
  induction l with
  | nil => cases hm
  | cons e rest ih =>
    rw [List.map_cons, List.nodup_cons] at hnd
    rcases List.mem_cons.mp hm with heq | hmem
    · rw [← heq, alookup, if_pos rfl]
    · have hne : e.1 ≠ k := by
        intro he
        apply hnd.1
        rw [he]
        exact List.mem_map_of_mem Prod.fst hmem
      rw [alookup, if_neg hne]
      exact ih hnd.2 hmem

theorem mem_of_alookup_some {α : Type _} (l : List (Str × α)) (k : Str) (v : α)
    (h : alookup k l = some v) : (k, v) ∈ l := by
  induction l with
  | nil => cases h
  | cons e rest ih =>
    rw [alookup] at h
    by_cases hk : e.1 = k
    · rw [if_pos hk] at h
      obtain rfl : e.2 = v := by simpa using h
      exact List.mem_cons.mpr (Or.inl (by rw [← hk]))
    · rw [if_neg hk] at h
      exact List.mem_cons.mpr (Or.inr (ih h))

/-- Claim C5: `refresh_pending` enqueues exactly the `(hash, url)` pairs with
a zero-size Content placeholder, no Failure record and an Index entry (whose
stripped text is the url); consequently a Downloaded hash (Content size over
100) or a Failed hash is never re-enqueued. -/
theorem refresh_pending_exact (s : CrawlState)
    (hnd : (s.ledger.content.map Prod.fst).Nodup) :
    (∀ h u, ((h, u) ∈ (refresh_pending s).pending ↔
      (alookup h s.ledger.content = some 0 ∧ is_failed s.ledger h = false ∧
        ∃ u₀, alookup h s.ledger.index = some u₀ ∧ u = pyStrip u₀))) ∧
    (∀ h u, (is_downloaded s.ledger h = true ∨ is_failed s.ledger h = true) →
      (h, u) ∉ (refresh_pending s).pending) := by
  have hpend : (refresh_pending s).pending = refreshedPairs s.ledger := rfl
  have hmain : ∀ h u, ((h, u) ∈ (refresh_pending s).pending ↔
      (alookup h s.ledger.content = some 0 ∧ is_failed s.ledger h = false ∧
        ∃ u₀, alookup h s.ledger.index = some u₀ ∧ u = pyStrip u₀)) := by
    intro h u
    rw [hpend]
    unfold refreshedPairs
    rw [List.mem_filterMap]
    constructor
    · rintro ⟨e, he, hfe⟩
      by_cases h2 : e.2 = 0
      · rw [if_pos h2] at hfe
        by_cases h3 : is_failed s.ledger e.1
        · rw [if_pos h3] at hfe
          cases hfe
        · rw [if_neg h3] at hfe
          cases halk : alookup e.1 s.ledger.index with
          | none => rw [halk] at hfe; cases hfe
          | some u₀ =>
            rw [halk] at hfe
            have hp : e.1 = h ∧ pyStrip u₀ = u := by
              simpa [Prod.ext_iff] using hfe
            obtain ⟨hp1, hp2⟩ := hp
            have he0 : (e.1, (0 : Nat)) ∈ s.ledger.content := by
              have hee : e = (e.1, (0 : Nat)) := by
                rw [← h2]
              rw [← hee]
              exact he
            refine ⟨?_, by rw [← hp1]; simpa using h3, u₀, ?_, hp2.symm⟩
            · rw [← hp1]
              exact alookup_of_mem_nodup _ hnd _ _ he0
            · rw [← hp1]
              exact halk
      · rw [if_neg h2] at hfe
        cases hfe
    · rintro ⟨hc, hf, u₀, hidx, rfl⟩
      refine ⟨(h, 0), mem_of_alookup_some _ _ _ hc, ?_⟩
      rw [if_pos rfl, if_neg (by simp [hf]), hidx]
  refine ⟨hmain, ?_⟩
  intro h u hdisj hmem
  obtain ⟨hc0, hf, -⟩ := (hmain h u).mp hmem
  rcases hdisj with hdl | hfl
  · rw [is_downloaded, hc0] at hdl
    simp at hdl
  · rw [hfl] at hf
    cases hf

/-- Witness for claim C5: the single Pending entry of a one-entry ledger is
recovered by `refresh_pending`. -/
theorem refresh_pending_exact_witness :
    ("h1".data, "https://www.example.com/a".data) ∈ (refresh_pending stOne).pending :=
  ((refresh_pending_exact stOne (by decide)).1 "h1".data "https://www.example.com/a".data).mpr
    ⟨by decide, by decide, "https://www.example.com/a".data, by decide, by decide⟩

theorem isPrefixOf_append_self (l t : Str) : l.isPrefixOf (l ++ t) = true := by
  induction l with
  | nil => simp [List.isPrefixOf]
  | cons c cs ih => simp [List.isPrefixOf, ih]

theorem skip_any_of_head_h (link : Str) (hhead : link.head? = some 'h') :
    skipPrefixes.any (fun p => p.isPrefixOf link) = false := by
  cases link with
  | nil => cases hhead
  | cons c rest =>
    obtain rfl : c = 'h' := by simpa using hhead
    simp [skipPrefixes, List.isPrefixOf]

theorem processHtmlLink_resolved (P : Prims) (C : CrawlerCfg) (baseUrl link : Str)
    (hskip : skipPrefixes.any (fun p => p.isPrefixOf link) = false)
    (hhead : ¬ (link.head? = some '/'))
    (hpre : ("http://".data.isPrefixOf link) = true ∨ ("https://".data.isPrefixOf link) = true)
    (hstrip : pyStrip link = link) :
    processHtmlLink P C baseUrl link
      = (if normalize_url C.rootDomain link = [] then none
         else if ¬ is_same_domain C (netlocOf (normalize_url C.rootDomain link)) then none
         else if should_include_url P C (normalize_url C.rootDomain link) then
           some (normalize_url C.rootDomain link)
         else none) := by
  simp only [processHtmlLink]
  rw [hstrip]
  rw [if_neg (by simp [hskip])]
  rw [if_neg hhead]
  rw [if_neg (not_not_intro hpre)]

theorem processJsLink_pipeline (P : Prims) (C : CrawlerCfg) (link : Str) :
    ∀ v, processJsLink P C link = some v →
      v = normalize_url C.rootDomain link ∧ is_same_domain C (netlocOf v) = true := by
  intro v hv
  simp only [processJsLink] at hv
  by_cases h1 : normalize_url C.rootDomain link = []
  · rw [if_pos h1] at hv
    cases hv
  · rw [if_neg h1] at hv
    by_cases h2 : is_same_domain C (netlocOf (normalize_url C.rootDomain link)) = true
    · rw [if_neg (not_not_intro h2)] at hv
      by_cases h3 : EXCLUDE_PATTERNS ≠ [] ∧
          EXCLUDE_PATTERNS.any (fun p => P.rmatch p (normalize_url C.rootDomain link)) = true
      · rw [if_pos h3] at hv
        cases hv
      · rw [if_neg h3] at hv
        obtain rfl : normalize_url C.rootDomain link = v := by simpa using hv
        exact ⟨rfl, h2⟩
    · rw [if_pos (by simpa using h2)] at hv
      cases hv

theorem agreement_default (P : Prims) (C : CrawlerCfg) (baseUrl link : Str)
    (hskip : skipPrefixes.any (fun p => p.isPrefixOf link) = false)
    (hhead : ¬ (link.head? = some '/'))
    (hpre : ("http://".data.isPrefixOf link) = true ∨ ("https://".data.isPrefixOf link) = true)
    (hstrip : pyStrip link = link)
    (hdef : C.config = defaultConfig) :
    processHtmlLink P C baseUrl link = processJsLink P C link := by
  rw [processHtmlLink_resolved P C baseUrl link hskip hhead hpre hstrip]
  simp only [processJsLink]
  by_cases h1 : normalize_url C.rootDomain link = []
  · rw [if_pos h1, if_pos h1]
  · rw [if_neg h1, if_neg h1]
    by_cases h2 : is_same_domain C (netlocOf (normalize_url C.rootDomain link)) = true
    · rw [if_neg (not_not_intro h2), if_neg (not_not_intro h2)]
      have hne : EXCLUDE_PATTERNS ≠ [] := by decide
      by_cases h3 : EXCLUDE_PATTERNS.any
          (fun p => P.rmatch p (normalize_url C.rootDomain link)) = true
      · have hsi : should_include_url P C (normalize_url C.rootDomain link) = false := by
          simp [should_include_url, hdef, defaultConfig, INCLUDE_PATTERNS, h3, hne]
        rw [if_neg (by simp [hsi]), if_pos ⟨hne, h3⟩]
      · have hsi : should_include_url P C (normalize_url C.rootDomain link) = true := by
          simp [should_include_url, hdef, defaultConfig, INCLUDE_PATTERNS, h3, hne]
        rw [if_pos hsi, if_neg (by simp [h3])]
    · rw [if_pos (by simpa using h2), if_pos (by simpa using h2)]

/-- Claim C2, counterexample: with a configured include pattern `/blog/`, the
absolute link `https://www.example.com/about` is accepted by the DOM-link
filter (`_parse_js_links`, which consults only the global exclude patterns)
but rejected by the raw-markup filter (`extract_urls_from_html`, which
consults the configured include patterns), so the two filter decisions differ
for the same link. -/
theorem extraction_filters_disagree :
    ("https://".data <+: "https://www.example.com/about".data) ∧
    processJsLink prims0 cfgBlog "https://www.example.com/about".data
      = some "https://www.example.com/about".data ∧
    processHtmlLink prims0 cfgBlog "https://www.example.com/".data
      "https://www.example.com/about".data = none := by
  decide

/-- Claim C2 (amended): both extraction strategies feed every absolute link
through the same canonicalizer and same-domain check, but the filter steps
differ: DOM-extracted links are screened only against the built-in global
exclude patterns, while raw-markup links are screened with the configured
include/exclude patterns; under the default configuration (no include
patterns, global excludes) the two decisions coincide for every link. -/
theorem extraction_pipeline_agreement (P : Prims) (C : CrawlerCfg) (baseUrl link : Str)
    (habs : "http://".data <+: link ∨ "https://".data <+: link)
    (hstrip : pyStrip link = link) :
    (∀ v, processJsLink P C link = some v →
      v = normalize_url C.rootDomain link ∧ is_same_domain C (netlocOf v) = true) ∧
    (∀ v, processHtmlLink P C baseUrl link = some v →
      v = normalize_url C.rootDomain link ∧ is_same_domain C (netlocOf v) = true) ∧
    (C.config = defaultConfig → processHtmlLink P C baseUrl link = processJsLink P C link) := by
  have hh : link.head? = some 'h' := by
    obtain ⟨t, ht⟩ | ⟨t, ht⟩ := habs <;> subst ht <;> rfl
  have hskip := skip_any_of_head_h link hh
  have hhead : ¬ (link.head? = some '/') := by
    rw [hh]
    simp
  have hpre : ("http://".data.isPrefixOf link) = true
      ∨ ("https://".data.isPrefixOf link) = true := by
    obtain ⟨t, ht⟩ | ⟨t, ht⟩ := habs <;> subst ht
    · exact Or.inl (isPrefixOf_append_self _ _)
    · exact Or.inr (isPrefixOf_append_self _ _)
  refine ⟨processJsLink_pipeline P C link, ?_,
    agreement_default P C baseUrl link hskip hhead hpre hstrip⟩
  intro v hv
  rw [processHtmlLink_resolved P C baseUrl link hskip hhead hpre hstrip] at hv
  by_cases h1 : normalize_url C.rootDomain link = []
  · rw [if_pos h1] at hv
    cases hv
  · rw [if_neg h1] at hv
    by_cases h2 : is_same_domain C (netlocOf (normalize_url C.rootDomain link)) = true
    · rw [if_neg (not_not_intro h2)] at hv
      by_cases h3 : should_include_url P C (normalize_url C.rootDomain link) = true
      · rw [if_pos h3] at hv
        obtain rfl : normalize_url C.rootDomain link = v := by simpa using hv
        exact ⟨rfl, h2⟩
      · rw [if_neg (by simpa using h3)] at hv
        cases hv
    · rw [if_pos (by simpa using h2)] at hv
      cases hv

/-- Witness for the amended claim C2: with the default configuration the two
per-link pipelines agree on a concrete absolute link. -/
theorem extraction_pipeline_agreement_witness :
    processHtmlLink prims0 cfgDefault "https://www.example.com/".data
      "https://www.example.com/about".data
      = processJsLink prims0 cfgDefault "https://www.example.com/about".data :=
  (extraction_pipeline_agreement prims0 cfgDefault "https://www.example.com/".data
      "https://www.example.com/about".data (Or.inr (by decide)) (by decide)).2.2 rfl

/-- Claim C3, counterexample: a page longer than 500 characters whose head
title contains both `404` and `429 ... too many requests` classifies as
`404_not_found`, because the decision table checks 404 first; so a title
containing `429` does not always classify as `429_rate_limited`. -/
theorem classifier_order_counterexample :
    html404429.length > 500 ∧
    (pyContains "429".data (pageTitleOf html404429) = true ∧
     pyContains "too many requests".data (pageTitleOf html404429) = true) ∧
    errorReasonOf html404429 = some "404_not_found".data ∧
    errorReasonOf html404429 ≠ some "429_rate_limited".data := by
  decide

/-- Claim C3 (amended): for a page longer than 500 characters with a
well-formed `<head>` section whose title contains `429` or
`too many requests` and none of the earlier markers of the decision table
(`404`, `not found`, `403`, `forbidden`), the classifier returns
`429_rate_limited`; the title is drawn from the head section only, so error
markers elsewhere in the body cannot change the outcome, and the table is
evaluated in order 404, 403, 429, 500, 502, 503 with the first match
winning. -/
theorem classifier_precedence (html hs t : Str)
    (hlen : html.length > 500)
    (hhead : findHeadContent (pyLower html) = some hs)
    (htitle : findTitleContent hs = some t)
    (h429 : pyContains "429".data (pyStrip t) = true ∨
            pyContains "too many requests".data (pyStrip t) = true)
    (h404 : pyContains "404".data (pyStrip t) = false)
    (hnf : pyContains "not found".data (pyStrip t) = false)
    (h403 : pyContains "403".data (pyStrip t) = false)
    (hforb : pyContains "forbidden".data (pyStrip t) = false) :
    errorReasonOf html = some "429_rate_limited".data := by
  have htit : pageTitleOf html = pyStrip t := by
    unfold pageTitleOf
    simp only [hhead, Option.getD_some, htitle]
  unfold errorReasonOf
  rw [htit]
  unfold firstError classifyTable
  rcases h429 with h | h <;>
    simp [List.findSome?_cons, h404, hnf, h403, hforb, h]

/-- Witness for the amended claim C3 on the spec's own example page: head
title `429 - Too Many Requests`, body containing `404 not found`. -/
theorem classifier_precedence_witness :
    errorReasonOf htmlSpecExample = some "429_rate_limited".data :=
  classifier_precedence htmlSpecExample
    "<title>429 - too many requests</title>".data
    "429 - too many requests".data
    (by decide) (by decide) (by decide) (Or.inl (by decide))
    (by decide) (by decide) (by decide) (by decide)

theorem doFetch_error_html (b : FetchBehavior) (h : (doFetch b).2.2 = true) :
    (doFetch b).1 = [] := by
  unfold doFetch at h ⊢
  rcases b with ⟨nav, rs, ev, gh⟩
  cases nav <;> cases ev <;> cases gh <;> simp_all

/-- Claim C4, counterexample: a fetch whose `document.readyState` evaluation
raises on every poll still proceeds (the poll loop swallows the exception),
and when `get_html` then returns a clean page the Content entry is written —
so an exception in the readyState evaluation does not imply that nothing is
written. -/
theorem readystate_exception_not_transport :
    behReadyStateRaises.readyState 0 = PyResult.exn ∧
    is_downloaded stOne.ledger "h1".data = false ∧
    is_downloaded
      (process_one shaOne prims0 cfgDefault (fun _ => behReadyStateRaises) stOne).2.ledger
      "h1".data = true := by
  decide

/-- Claim C4 (amended): when `navigate`, the DOM-links evaluation or
`get_html` raises while fetching a frontier entry, `process_one` writes
neither a Failure record nor Content: the ledger is unchanged (the zero-size
placeholder stays), and for a registered entry the pair reappears on the next
`refresh_pending`.  An exception confined to the readyState poll, by
contrast, is swallowed and the fetch proceeds (see the counterexample). -/
theorem bridge_error_keeps_pending (sha256 : Str → Str) (P : Prims) (C : CrawlerCfg)
    (behOf : Str → FetchBehavior) (s : CrawlState) (h u : Str) (rest : List (Str × Str))
    (hpend : s.pending = (h, u) :: rest)
    (hf : is_failed s.ledger h = false)
    (hd : is_downloaded s.ledger h = false)
    (hb : hasBinaryExt u = false)
    (herr : (doFetch (behOf u)).2.2 = true) :
    (process_one sha256 P C behOf s).1 = true ∧
    (process_one sha256 P C behOf s).2.ledger = s.ledger ∧
    (process_one sha256 P C behOf s).2.pending = rest ∧
    (alookup h s.ledger.index = some u → pyStrip u = u →
      alookup h s.ledger.content = some 0 →
      (h, u) ∈ (refresh_pending (process_one sha256 P C behOf s).2).pending) := by
  have hhtml : (doFetch (behOf u)).1 = [] := doFetch_error_html _ herr
  have hred : process_one sha256 P C behOf s
      = (true, { s with pending := rest
                      , pendingShas := s.pendingShas.erase h
                      , pages_processed := s.pages_processed + 1 }) := by
    unfold process_one
    rw [hpend]
    simp [hf, hd, hb, hhtml, herr]
  refine ⟨by rw [hred], by rw [hred], by rw [hred], ?_⟩
  intro hidx hstrip hcon
  rw [hred]
  show (h, u) ∈ refreshedPairs s.ledger
  unfold refreshedPairs
  apply List.mem_filterMap.mpr
  refine ⟨(h, 0), mem_of_alookup_some _ _ _ hcon, ?_⟩
  rw [if_pos rfl, if_neg (by simp [hf]), hidx]
  simp [hstrip]

/-- Witness for the amended claim C4: a raising `navigate` leaves the ledger
of a one-entry crawl state untouched and the entry is recovered by the next
refresh. -/
theorem bridge_error_keeps_pending_witness :
    (process_one shaOne prims0 cfgDefault (fun _ => behNavigateRaises) stOne).2.ledger
      = stOne.ledger ∧
    ("h1".data, "https://www.example.com/a".data) ∈
      (refresh_pending
        (process_one shaOne prims0 cfgDefault (fun _ => behNavigateRaises) stOne).2).pending :=
  ⟨(bridge_error_keeps_pending shaOne prims0 cfgDefault (fun _ => behNavigateRaises) stOne
      "h1".data "https://www.example.com/a".data [] rfl (by decide) (by decide) (by decide)
      (by decide)).2.1,
   (bridge_error_keeps_pending shaOne prims0 cfgDefault (fun _ => behNavigateRaises) stOne
      "h1".data "https://www.example.com/a".data [] rfl (by decide) (by decide) (by decide)
      (by decide)).2.2.2 (by decide) (by decide) (by decide)⟩

/-- Claim C6: the two spellings `http://example.com/a?x=1#f` and
`https://www.example.com/a` canonicalize to the same URL
`https://www.example.com/a`, hence `url_to_sha` hashes them identically for
every digest function. -/
theorem normalize_canonical_stability :
    normalize_url "example.com".data "http://example.com/a?x=1#f".data
      = normalize_url "example.com".data "https://www.example.com/a".data ∧
    normalize_url "example.com".data "http://example.com/a?x=1#f".data
      = "https://www.example.com/a".data ∧
    ∀ sha256 : Str → Str,
      url_to_sha sha256 (normalize_url "example.com".data "http://example.com/a?x=1#f".data)
        = url_to_sha sha256 (normalize_url "example.com".data "https://www.example.com/a".data) :=
  ⟨by decide, by decide, fun sha256 => congrArg sha256 (by decide)⟩

theorem alookup_aset_self {α : Type _} (k : Str) (v : α) (l : List (Str × α)) :
    alookup k (aset k v l) = some v := by
  induction l with
  | nil => simp [aset, alookup]
  | cons e rest ih =>
    by_cases he : e.1 = k
    · simp [aset, he, alookup]
    · simp [aset, he, alookup, ih]

theorem alookup_aset_ne {α : Type _} (k k' : Str) (v : α) (l : List (Str × α))
    (hne : k' ≠ k) : alookup k (aset k' v l) = alookup k l := by
  induction l with
  | nil => simp [aset, alookup, hne]
  | cons e rest ih =>
    by_cases he : e.1 = k'
    · simp [aset, he, alookup, hne, Ne.symm hne]
    · simp [aset, he, alookup, ih]

theorem aerase_sublist {α : Type _} (k : Str) (l : List (Str × α)) :
    List.Sublist (aerase k l) l := by
  induction l with
  | nil => simp [aerase]
  | cons e rest ih =>
    by_cases he : e.1 = k
    · rw [aerase, if_pos he]
      exact (List.sublist_cons_self e rest)
    · rw [aerase, if_neg he]
      exact List.Sublist.cons₂ e ih

theorem alookup_aerase_ne {α : Type _} (k k' : Str) (l : List (Str × α))
    (hne : k' ≠ k) : alookup k (aerase k' l) = alookup k l := by
  induction l with
  | nil => rfl
  | cons e rest ih =>
    by_cases he : e.1 = k'
    · rw [aerase, if_pos he, alookup, if_neg (by rw [he]; exact hne)]
    · rw [aerase, if_neg he, alookup, alookup]
      by_cases hk : e.1 = k
      · rw [if_pos hk, if_pos hk]
      · rw [if_neg hk, if_neg hk, ih]

theorem alookup_aerase_self {α : Type _} (k : Str) (l : List (Str × α))
    (hnd : (l.map Prod.fst).Nodup) : alookup k (aerase k l) = none := by
  induction l with
  | nil => rfl
  | cons e rest ih =>
    rw [List.map_cons, List.nodup_cons] at hnd
    by_cases he : e.1 = k
    · rw [aerase, if_pos he]
      cases halk : alookup k rest with
      | none => rfl
      | some v =>
        exact absurd (by rw [he]; exact List.mem_map_of_mem Prod.fst (mem_of_alookup_some _ _ _ halk)) hnd.1
    · rw [aerase, if_neg he, alookup, if_neg he]
      exact ih hnd.2


theorem mark_failed_alookup_failed_self (L : Ledger) (h u r : Str) :
    alookup h (mark_failed L h u r).failed = some ⟨u, r⟩ := by
  cases hc : alookup h L.content with
  | none => simp [mark_failed, hc, alookup_aset_self]
  | some n =>
    cases n with
    | zero => simp [mark_failed, hc, alookup_aset_self]
    | succ m => simp [mark_failed, hc, alookup_aset_self]

theorem mark_failed_alookup_failed_ne (L : Ledger) (h u r k : Str) (hne : h ≠ k) :
    alookup k (mark_failed L h u r).failed = alookup k L.failed := by
  cases hc : alookup h L.content with
  | none => simp [mark_failed, hc, alookup_aset_ne _ _ _ _ hne]
  | some n =>
    cases n with
    | zero => simp [mark_failed, hc, alookup_aset_ne _ _ _ _ hne]
    | succ m => simp [mark_failed, hc, alookup_aset_ne _ _ _ _ hne]

theorem mark_failed_content_keys (L : Ledger) (h u r : Str) :
    List.Sublist (mark_failed L h u r).content L.content := by
  cases hc : alookup h L.content with
  | none => simp [mark_failed, hc]
  | some n =>
    cases n with
    | zero => simp [mark_failed, hc, aerase_sublist]
    | succ m => simp [mark_failed, hc]

theorem mark_failed_index (L : Ledger) (h u r : Str) :
    (mark_failed L h u r).index = L.index := by
  cases hc : alookup h L.content with
  | none => simp [mark_failed, hc]
  | some n =>
    cases n with
    | zero => simp [mark_failed, hc]
    | succ m => simp [mark_failed, hc]

theorem mark_failed_content_ne (L : Ledger) (h u r k : Str) (hne : h ≠ k) :
    alookup k (mark_failed L h u r).content = alookup k L.content := by
  cases hc : alookup h L.content with
  | none => simp [mark_failed, hc]
  | some n =>
    cases n with
    | zero => simp [mark_failed, hc, alookup_aerase_ne _ _ _ hne]
    | succ m => simp [mark_failed, hc]

theorem is_downloaded_mark_failed (L : Ledger) (h u r : Str)
    (hnd : (L.content.map Prod.fst).Nodup)
    (hd : is_downloaded L h = false) :
    ∀ k, is_downloaded (mark_failed L h u r) k = is_downloaded L k := by
  intro k
  by_cases hk : h = k
  · subst hk
    cases hc : alookup h L.content with
    | none => simp [mark_failed, hc, is_downloaded]
    | some n =>
      cases n with
      | zero =>
        unfold is_downloaded
        rw [show (mark_failed L h u r).content = aerase h L.content by
              simp [mark_failed, hc]]
        rw [alookup_aerase_self _ _ hnd, hc]
        simp
      | succ m => simp [mark_failed, hc, is_downloaded]
  · unfold is_downloaded
    rw [mark_failed_content_ne L h u r k hk]

theorem process_one_empty_response (sha256 : Str → Str) (P : Prims) (C : CrawlerCfg)
    (behOf : Str → FetchBehavior) (s : CrawlState) (h u : Str) (rest : List (Str × Str))
    (hpend : s.pending = (h, u) :: rest)
    (hf : is_failed s.ledger h = false)
    (hd : is_downloaded s.ledger h = false)
    (hb : hasBinaryExt u = false)
    (hbe : (doFetch (behOf u)).2.2 = false)
    (hlen : (doFetch (behOf u)).1.length ≤ 500) :
    process_one sha256 P C behOf s
      = (true, { s with pending := rest
                      , pendingShas := s.pendingShas.erase h
                      , pages_processed := s.pages_processed + 1
                      , total_errors := s.total_errors + 1
                      , ledger := mark_failed s.ledger h u "empty_response".data }) := by
  have hnot : ¬ ((doFetch (behOf u)).1 ≠ [] ∧ (doFetch (behOf u)).1.length > 500) := by
    rintro ⟨-, hgt⟩
    omega
  unfold process_one
  rw [hpend]
  simp [hf, hd, hb, hbe, hnot]

theorem crawlLoop_of_not_pending (sha256 : Str → Str) (P : Prims) (C : CrawlerCfg)
    (behOf : Str → FetchBehavior) (s : CrawlState) (h : has_pending s = false) :
    ∀ fuel, crawlLoop sha256 P C behOf fuel s = s := by
  intro fuel
  cases fuel with
  | zero => rfl
  | succ n => simp [crawlLoop, h]

theorem crawlLoop_add (sha256 : Str → Str) (P : Prims) (C : CrawlerCfg)
    (behOf : Str → FetchBehavior) :
    ∀ (a b : Nat) (s : CrawlState),
      crawlLoop sha256 P C behOf (a + b) s
        = crawlLoop sha256 P C behOf b (crawlLoop sha256 P C behOf a s) := by
  intro a
  induction a with
  | zero =>
    intro b s
    rw [Nat.zero_add]
    rfl
  | succ a ih =>
    intro b s
    rw [show a + 1 + b = (a + b) + 1 by omega]
    by_cases hp : has_pending s = true
    · rw [crawlLoop, if_pos hp, ih]
      rw [show crawlLoop sha256 P C behOf (a + 1) s
            = crawlLoop sha256 P C behOf a (process_one sha256 P C behOf s).2 by
          rw [crawlLoop, if_pos hp]]
    · have hp2 : has_pending s = false := by simpa using hp
      rw [crawlLoop_of_not_pending _ _ _ _ _ hp2, crawlLoop_of_not_pending _ _ _ _ _ hp2,
        crawlLoop_of_not_pending _ _ _ _ _ hp2]

theorem crawl_empty_aux (sha256 : Str → Str) (P : Prims) (C : CrawlerCfg)
    (behOf : Str → FetchBehavior)
    (hfetch : ∀ u, (doFetch (behOf u)).2.2 = false ∧ (doFetch (behOf u)).1.length ≤ 500) :
    ∀ (pend : List (Str × Str)) (s : CrawlState),
      s.pending = pend →
      s.active = true →
      (pend.map Prod.fst).Nodup →
      (s.ledger.content.map Prod.fst).Nodup →
      (∀ p ∈ pend, is_failed s.ledger p.1 = false ∧ is_downloaded s.ledger p.1 = false ∧
        hasBinaryExt p.2 = false) →
      (crawlLoop sha256 P C behOf pend.length s).pending = [] ∧
      (crawlLoop sha256 P C behOf pend.length s).active = true ∧
      (crawlLoop sha256 P C behOf pend.length s).pages_processed
        = s.pages_processed + pend.length ∧
      (crawlLoop sha256 P C behOf pend.length s).total_ok = s.total_ok ∧
      (∀ k, is_downloaded (crawlLoop sha256 P C behOf pend.length s).ledger k
        = is_downloaded s.ledger k) ∧
      (∀ p ∈ pend, alookup p.1 (crawlLoop sha256 P C behOf pend.length s).ledger.failed
        = some ⟨p.2, "empty_response".data⟩) ∧
      (∀ k, k ∉ pend.map Prod.fst →
        alookup k (crawlLoop sha256 P C behOf pend.length s).ledger.failed
          = alookup k s.ledger.failed) := by
  intro pend
  induction pend with
  | nil =>
    intro s hpend hact _ _ _
    refine ⟨by simpa [crawlLoop] using hpend, hact, rfl, rfl, fun k => rfl, ?_, fun k _ => rfl⟩
    intro p hp
    cases hp
  | cons e rest ih =>
    intro s hpend hact hnd hndc hent
    obtain ⟨h, u⟩ := e
    have hhead := hent (h, u) (List.mem_cons_self _ _)
    have hstep := process_one_empty_response sha256 P C behOf s h u rest hpend
      hhead.1 hhead.2.1 hhead.2.2 (hfetch u).1 (hfetch u).2
    have hloop : crawlLoop sha256 P C behOf ((h, u) :: rest).length s
        = crawlLoop sha256 P C behOf rest.length (process_one sha256 P C behOf s).2 := by
      rw [List.length_cons, crawlLoop, if_pos (by simp [has_pending, hact, hpend])]
    rw [List.map_cons, List.nodup_cons] at hnd
    set s₁ : CrawlState :=
      { s with pending := rest
             , pendingShas := s.pendingShas.erase h
             , pages_processed := s.pages_processed + 1
             , total_errors := s.total_errors + 1
             , ledger := mark_failed s.ledger h u "empty_response".data } with hs₁
    have hstep2 : (process_one sha256 P C behOf s).2 = s₁ := by rw [hstep]
    have hndc1 : (s₁.ledger.content.map Prod.fst).Nodup := by
      exact ((mark_failed_content_keys s.ledger h u "empty_response".data).map Prod.fst).nodup hndc
    have hent1 : ∀ p ∈ rest, is_failed s₁.ledger p.1 = false ∧
        is_downloaded s₁.ledger p.1 = false ∧ hasBinaryExt p.2 = false := by
      intro p hp
      have hpe := hent p (List.mem_cons_of_mem _ hp)
      have hpne : h ≠ p.1 := by
        intro he
        apply hnd.1
        rw [he]
        exact List.mem_map.mpr ⟨p, hp, rfl⟩
      refine ⟨?_, ?_, hpe.2.2⟩
      · unfold is_failed
        rw [show s₁.ledger = mark_failed s.ledger h u "empty_response".data from rfl]
        rw [mark_failed_alookup_failed_ne _ _ _ _ _ hpne]
        exact hpe.1
      · rw [show s₁.ledger = mark_failed s.ledger h u "empty_response".data from rfl]
        rw [is_downloaded_mark_failed _ _ _ _ hndc hhead.2.1]
        exact hpe.2.1
    have hih := ih s₁ rfl hact hnd.2 hndc1 hent1
    rw [hloop, hstep2]
    refine ⟨hih.1, hih.2.1, ?_, ?_, ?_, ?_, ?_⟩
    · rw [hih.2.2.1]
      simp [hs₁]
      omega
    · rw [hih.2.2.2.1]
    · intro k
      rw [hih.2.2.2.2.1 k]
      rw [show s₁.ledger = mark_failed s.ledger h u "empty_response".data from rfl]
      exact is_downloaded_mark_failed _ _ _ _ hndc hhead.2.1 k
    · rintro p hp
      rcases List.mem_cons.mp hp with rfl | hprest
      · rw [hih.2.2.2.2.2.2 h hnd.1]
        exact mark_failed_alookup_failed_self _ _ _ _
      · exact hih.2.2.2.2.2.1 p hprest
    · intro k hk
      rw [List.map_cons] at hk
      have hk1 : k ≠ h := fun he => hk (by rw [he]; exact List.mem_cons_self _ _)
      have hk2 : k ∉ rest.map Prod.fst := fun hm => hk (List.mem_cons_of_mem _ hm)
      rw [hih.2.2.2.2.2.2 k hk2]
      exact mark_failed_alookup_failed_ne _ _ _ _ _ (fun he => hk1 he.symm)

/-- Claim C9: when every frontier entry of a domain renders without transport
error to HTML of at most 500 characters, the round-robin loop ends after
exactly one pass over the N frontier entries (extra fuel changes nothing):
the frontier is empty, exactly N pages were processed, no page was
downloaded, and every entry is marked Failed with reason `empty_response`. -/
theorem no_progress_termination (sha256 : Str → Str) (P : Prims) (C : CrawlerCfg)
    (behOf : Str → FetchBehavior) (s : CrawlState) (N : Nat)
    (hN : s.pending.length = N)
    (hact : s.active = true)
    (hnd : (s.pending.map Prod.fst).Nodup)
    (hndc : (s.ledger.content.map Prod.fst).Nodup)
    (hent : ∀ p ∈ s.pending, is_failed s.ledger p.1 = false ∧
      is_downloaded s.ledger p.1 = false ∧ hasBinaryExt p.2 = false)
    (hfetch : ∀ u, (doFetch (behOf u)).2.2 = false ∧ (doFetch (behOf u)).1.length ≤ 500) :
    (crawlLoop sha256 P C behOf N s).pending = [] ∧
    (crawlLoop sha256 P C behOf N s).pages_processed = s.pages_processed + N ∧
    (crawlLoop sha256 P C behOf N s).total_ok = s.total_ok ∧
    (∀ k, is_downloaded (crawlLoop sha256 P C behOf N s).ledger k
      = is_downloaded s.ledger k) ∧
    (∀ p ∈ s.pending, alookup p.1 (crawlLoop sha256 P C behOf N s).ledger.failed
      = some ⟨p.2, "empty_response".data⟩) ∧
    (∀ extra, crawlLoop sha256 P C behOf (N + extra) s
      = crawlLoop sha256 P C behOf N s) := by
  subst hN
  have haux := crawl_empty_aux sha256 P C behOf hfetch s.pending s rfl hact hnd hndc hent
  refine ⟨haux.1, haux.2.2.1, haux.2.2.2.1, haux.2.2.2.2.1, haux.2.2.2.2.2.1, ?_⟩
  intro extra
  rw [crawlLoop_add]
  apply crawlLoop_of_not_pending
  simp [has_pending, haux.1]

/-- Witness for claim C9: one pending entry rendering to a five-character
page is failed as `empty_response` and the loop stops after one step. -/
theorem no_progress_termination_witness :
    (crawlLoop shaOne prims0 cfgDefault (fun _ => behShortHtml) 1 stOne).pending = [] ∧
    alookup "h1".data
      (crawlLoop shaOne prims0 cfgDefault (fun _ => behShortHtml) 1 stOne).ledger.failed
      = some ⟨"https://www.example.com/a".data, "empty_response".data⟩ :=
  ⟨(no_progress_termination shaOne prims0 cfgDefault (fun _ => behShortHtml) stOne 1
      rfl rfl (by decide) (by decide) (by decide) (by intro u; show (doFetch behShortHtml).2.2 = false ∧ (doFetch behShortHtml).1.length ≤ 500; decide)).1,
   (no_progress_termination shaOne prims0 cfgDefault (fun _ => behShortHtml) stOne 1
      rfl rfl (by decide) (by decide) (by decide) (by intro u; show (doFetch behShortHtml).2.2 = false ∧ (doFetch behShortHtml).1.length ≤ 500; decide)).2.2.2.2.1
     ("h1".data, "https://www.example.com/a".data) (by decide)⟩

theorem not_mem_keys_of_alookup_none {α : Type _} (k : Str) (l : List (Str × α))
    (h : alookup k l = none) : k ∉ l.map Prod.fst := by
  induction l with
  | nil => simp
  | cons e rest ih =>
    rw [alookup] at h
    by_cases h0 : e.1 = k
    · rw [if_pos h0] at h
      cases h
    · rw [if_neg h0] at h
      simp only [List.map_cons, List.mem_cons]
      rintro (he | hm)
      · exact h0 he.symm
      · exact ih h hm

theorem mem_keys_aset {α : Type _} (x k : Str) (v : α) (l : List (Str × α)) :
    x ∈ (aset k v l).map Prod.fst ↔ x ∈ l.map Prod.fst ∨ x = k := by
  induction l with
  | nil => simp [aset]
  | cons e rest ih =>
    by_cases he : e.1 = k
    · subst he
      simp [aset]
      tauto
    · rw [aset, if_neg he]
      simp only [List.map_cons, List.mem_cons, ih]
      tauto

theorem keys_aset_nodup {α : Type _} (k : Str) (v : α) (l : List (Str × α))
    (hnd : (l.map Prod.fst).Nodup) : ((aset k v l).map Prod.fst).Nodup := by
  induction l with
  | nil => simp [aset]
  | cons e rest ih =>
    rw [List.map_cons, List.nodup_cons] at hnd
    by_cases he : e.1 = k
    · rw [aset, if_pos he, List.map_cons, List.nodup_cons]
      exact ⟨by rw [← he]; exact hnd.1, hnd.2⟩
    · rw [aset, if_neg he, List.map_cons, List.nodup_cons]
      refine ⟨?_, ih hnd.2⟩
      intro hmem
      rcases (mem_keys_aset _ _ _ _).mp hmem with hm | hm
      · exact hnd.1 hm
      · exact he hm

theorem touch_file_content_nodup (L : Ledger) (h : Str)
    (hnd : (L.content.map Prod.fst).Nodup) :
    ((touch_file L h).content.map Prod.fst).Nodup := by
  unfold touch_file
  by_cases hc : (alookup h L.content).isSome
  · rw [if_pos hc]
    exact hnd
  · rw [if_neg hc]
    rw [List.map_cons, List.nodup_cons]
    refine ⟨?_, hnd⟩
    apply not_mem_keys_of_alookup_none
    cases halk : alookup h L.content with
    | none => rfl
    | some v => rw [halk] at hc; simp at hc

theorem setAdd_mem (h k : Str) (l : List Str) : k ∈ setAdd h l ↔ k = h ∨ k ∈ l := by
  unfold setAdd
  by_cases hm : h ∈ l
  · rw [if_pos hm]
    constructor
    · exact Or.inr
    · rintro (rfl | hk)
      · exact hm
      · exact hk
  · rw [if_neg hm]
    exact List.mem_cons

theorem setAdd_nodup (h : Str) (l : List Str) (hnd : l.Nodup) : (setAdd h l).Nodup := by
  unfold setAdd
  by_cases hm : h ∈ l
  · rw [if_pos hm]
    exact hnd
  · rw [if_neg hm]
    exact List.nodup_cons.mpr ⟨hm, hnd⟩

theorem queueInv_register (sha256 : Str → Str) (s : CrawlState) (url : Str)
    (hq : QueueInv s) : QueueInv (register_and_queue sha256 s url).2 := by
  obtain ⟨hiff, hndp, hnds, hndc⟩ := hq
  unfold register_and_queue
  by_cases hc : is_downloaded s.ledger (url_to_sha sha256 url)
      ∨ is_failed s.ledger (url_to_sha sha256 url)
      ∨ url_to_sha sha256 url ∈ s.pendingShas
  · rw [if_pos hc]
    exact ⟨hiff, hndp, hnds, hndc⟩
  · rw [if_neg hc]
    have hnotsha : url_to_sha sha256 url ∉ s.pendingShas := fun hm => hc (Or.inr (Or.inr hm))
    have hnotmap : url_to_sha sha256 url ∉ s.pending.map Prod.fst :=
      fun hm => hnotsha ((hiff _).mpr hm)
    refine ⟨?_, ?_, ?_, ?_⟩
    · intro k
      dsimp only
      rw [setAdd_mem, List.map_append, List.mem_append]
      simp only [List.map_cons, List.map_nil, List.mem_singleton]
      rw [hiff k]
      tauto
    · dsimp only
      rw [List.map_append, List.nodup_append]
      refine ⟨hndp, List.nodup_singleton _, ?_⟩
      intro x hx hx2
      simp only [List.map_cons, List.map_nil, List.mem_singleton] at hx2
      subst hx2
      exact hnotmap hx
    · exact setAdd_nodup _ _ hnds
    · dsimp only
      by_cases hi : (alookup (url_to_sha sha256 url) (touch_file s.ledger (url_to_sha sha256 url)).index).isSome
      · rw [if_pos hi]
        exact touch_file_content_nodup _ _ hndc
      · rw [if_neg hi]
        exact touch_file_content_nodup _ _ hndc

theorem queueInv_registerAll (sha256 : Str → Str) (urls : List Str) (s : CrawlState)
    (hq : QueueInv s) : QueueInv (registerAll sha256 urls s) := by
  induction urls generalizing s with
  | nil => exact hq
  | cons u us ih =>
    unfold registerAll
    rw [List.foldl_cons]
    apply ih
    dsimp only
    split
    · exact queueInv_register sha256 s u hq
    · exact queueInv_register sha256 s u hq

theorem foldl_setAdd_mem (l : List (Str × Str)) :
    ∀ (acc : List Str) (k : Str),
      k ∈ l.foldl (fun a e => setAdd e.1 a) acc ↔ k ∈ acc ∨ k ∈ l.map Prod.fst := by
  induction l with
  | nil => intro acc k; simp
  | cons e rest ih =>
    intro acc k
    rw [List.foldl_cons, ih, setAdd_mem]
    simp only [List.map_cons, List.mem_cons]
    tauto

theorem foldl_setAdd_nodup (l : List (Str × Str)) :
    ∀ acc : List Str, acc.Nodup → (l.foldl (fun a e => setAdd e.1 a) acc).Nodup := by
  induction l with
  | nil => intro acc h; exact h
  | cons e rest ih =>
    intro acc h
    rw [List.foldl_cons]
    exact ih _ (setAdd_nodup _ _ h)

theorem refreshedPairs_keys_sublist (L : Ledger) :
    List.Sublist ((refreshedPairs L).map Prod.fst) (L.content.map Prod.fst) := by
  unfold refreshedPairs
  generalize L.content = l
  induction l with
  | nil => simp
  | cons e rest ih =>
    rw [List.filterMap_cons]
    by_cases h2 : e.2 = 0
    · rw [if_pos h2]
      by_cases h3 : is_failed L e.1
      · rw [if_pos h3]
        rw [List.map_cons]
        exact ih.cons _
      · rw [if_neg h3]
        cases halk : alookup e.1 L.index with
        | none =>
          rw [List.map_cons]
          exact ih.cons _
        | some u₀ =>
          rw [List.map_cons, List.map_cons]
          exact ih.cons₂ _
    · rw [if_neg h2, List.map_cons]
      exact ih.cons _

theorem queueInv_refresh (s : CrawlState)
    (hndc : (s.ledger.content.map Prod.fst).Nodup) : QueueInv (refresh_pending s) := by
  refine ⟨?_, ?_, ?_, hndc⟩
  · intro k
    show k ∈ (refreshedPairs s.ledger).foldl (fun a e => setAdd e.1 a) []
        ↔ k ∈ (refreshedPairs s.ledger).map Prod.fst
    rw [foldl_setAdd_mem]
    simp
  · exact (refreshedPairs_keys_sublist s.ledger).nodup hndc
  · exact foldl_setAdd_nodup _ _ List.nodup_nil

theorem queueInv_process (sha256 : Str → Str) (P : Prims) (C : CrawlerCfg)
    (behOf : Str → FetchBehavior) (s : CrawlState) (hq : QueueInv s) :
    QueueInv (process_one sha256 P C behOf s).2 := by
  obtain ⟨hiff, hndp, hnds, hndc⟩ := hq
  rcases hpend : s.pending with _ | ⟨⟨h, u⟩, rest⟩
  · unfold process_one
    rw [hpend]
    exact ⟨hiff, hndp, hnds, hndc⟩
  · have hball : h ∉ List.map Prod.fst rest ∧ (List.map Prod.fst rest).Nodup := by
      have hx := hndp
      rw [hpend, List.map_cons, List.nodup_cons] at hx
      exact hx
    have hiff1 : ∀ k, k ∈ s.pendingShas.erase h ↔ k ∈ rest.map Prod.fst := by
      intro k
      rw [hnds.mem_erase_iff, hiff k, hpend, List.map_cons, List.mem_cons]
      constructor
      · rintro ⟨hne, (he | hm)⟩
        · exact absurd he hne
        · exact hm
      · intro hm
        refine ⟨?_, Or.inr hm⟩
        rintro rfl
        exact hball.1 hm
    have hnds1 : (s.pendingShas.erase h).Nodup := hnds.erase _
    unfold process_one
    rw [hpend]
    dsimp only
    split
    · exact ⟨hiff1, hball.2, hnds1, hndc⟩
    · split
      · exact ⟨hiff1, hball.2, hnds1,
          (((mark_failed_content_keys s.ledger h u "skipped_binary".data).map
            Prod.fst).nodup hndc)⟩
      · split
        · split
          · exact ⟨hiff1, hball.2, hnds1,
              (((mark_failed_content_keys s.ledger h u _).map Prod.fst).nodup hndc)⟩
          · apply queueInv_registerAll
            exact ⟨hiff1, hball.2, hnds1, keys_aset_nodup _ _ _ hndc⟩
        · split
          · exact ⟨hiff1, hball.2, hnds1, hndc⟩
          · exact ⟨hiff1, hball.2, hnds1,
              (((mark_failed_content_keys s.ledger h u "empty_response".data).map
                Prod.fst).nodup hndc)⟩

theorem queueInv_applyOp (sha256 : Str → Str) (P : Prims) (C : CrawlerCfg)
    (s : CrawlState) (op : QOp) (hq : QueueInv s) :
    QueueInv (applyOp sha256 P C s op) := by
  cases op with
  | reg url => exact queueInv_register sha256 s url hq
  | proc behOf => exact queueInv_process sha256 P C behOf s hq
  | refresh => exact queueInv_refresh s hq.2.2.2

/-- Claim C10: after any sequence of `register_and_queue`, `process_one` and
`refresh_pending` operations, the dedup set `pending_shas` holds exactly the
hashes of the pending queue and no hash occurs twice in the queue:
`register_and_queue` appends the pair and adds its hash together or does
neither, the pop in `process_one` removes the hash from the set, and
`refresh_pending` rebuilds both structures together. -/
theorem queue_dedup_invariant (sha256 : Str → Str) (P : Prims) (C : CrawlerCfg)
    (ops : List QOp) (s : CrawlState) (hq : QueueInv s) :
    QueueInv (applyOps sha256 P C ops s) := by
  induction ops generalizing s with
  | nil => exact hq
  | cons op rest ih => exact ih _ (queueInv_applyOp sha256 P C s op hq)

/-- Witness for claim C10: the invariant holds after registering, fetching
and refreshing from the empty state. -/
theorem queue_dedup_invariant_witness :
    QueueInv (applyOps shaOne prims0 cfgDefault
      [QOp.reg "https://www.example.com/a".data,
       QOp.proc (fun _ => behShortHtml), QOp.refresh] stEmpty) :=
  queue_dedup_invariant shaOne prims0 cfgDefault _ stEmpty
    ⟨fun k => Iff.rfl, List.nodup_nil, List.nodup_nil, List.nodup_nil⟩

end Crawl3
